import Mathlib

/-!
Shallow embedding of the commit-subject linter (`main.go` of
takara-ai/commit-lint) and proofs about its behaviour.

Go strings are modelled as lists of characters (`Str`); Go's `len` on a
string counts UTF-8 bytes, modelled by `goLen` via `Char.utf8Size`.
Go slices that the code compares against `nil` are modelled as
`Option (List _)`: `none` is the nil slice, `some []` the empty non-nil
slice — the code distinguishes them (`l.Config.AllowedTypes != nil`).
Environment variables are modelled as strings, with the empty string for
an unset variable, exactly what `os.Getenv` yields.
-/

abbrev Str := List Char

/-- Character list of a string literal. -/
def str (s : String) : Str := s.data

/-- `[a-z]` of the subject regular expression. -/
def isLowerAlpha (c : Char) : Bool := decide ('a' ≤ c) && decide (c ≤ 'z')

/-- `[a-z0-9]`, the first character of a scope. -/
def isScopeStart (c : Char) : Bool :=
  isLowerAlpha c || (decide ('0' ≤ c) && decide (c ≤ '9'))

/-- The class of the remaining scope characters: lowercase letters,
digits, dot, slash and dash. -/
def isScopeChar (c : Char) : Bool :=
  isScopeStart c || c == '.' || c == '/' || c == '-'

/-- After type and optional scope, the regular expression demands an
optional `!` and then the literal `": "`; `(.*)$` takes the rest of the
line, which therefore may not contain a newline. -/
def parseTail (ctype scope : Str) (r : Str) : Option (Str × Str × Bool × Str) :=
  match r with
  | '!' :: ':' :: ' ' :: d =>
      if d.all (fun c => c != '\n') then some (ctype, scope, true, d) else none
  | ':' :: ' ' :: d =>
      if d.all (fun c => c != '\n') then some (ctype, scope, false, d) else none
  | _ => none

/-- `regexp.FindStringSubmatch` with the anchored subject pattern of
`main.go`: a lowercase type, an optional parenthesised scope (first
character `isScopeStart`, rest `isScopeChar`, lazily quantified), an
optional `!`, the literal `": "`, and the captured description.
The pattern is deterministic: the type is the maximal lowercase run
(the character after it must be `(`, `!` or `:`, none of which is a
lowercase letter), and since `)` is not a scope character the lazy scope
body is exactly the run of scope characters after `(`, which must be
closed by `)` immediately.  `parseAfterType` handles the optional scope
group and the tail once the type has been taken off the front. -/
def parseAfterType (ctype rest : Str) : Option (Str × Str × Bool × Str) :=
  match rest with
  | '(' :: afterParen =>
      match afterParen.takeWhile isScopeChar, afterParen.dropWhile isScopeChar with
      | c :: cs, ')' :: afterClose =>
          if isScopeStart c then parseTail ctype (c :: cs) afterClose else none
      | _, _ => none
  | _ => parseTail ctype [] rest

def parseSubject (s : Str) : Option (Str × Str × Bool × Str) :=
  let ctype := s.takeWhile isLowerAlpha
  let rest := s.dropWhile isLowerAlpha
  if ctype.isEmpty then none
  else parseAfterType ctype rest

/-- `unicode.IsSpace`, the character class trimmed by `strings.TrimSpace`. -/
def isGoSpace (c : Char) : Bool :=
  c == ' ' || c == '\t' || c == '\n' || c == '\x0b' || c == '\x0c' || c == '\r' ||
  c.val == 0x85 || c.val == 0xa0 || c.val == 0x1680 ||
  (decide (0x2000 ≤ c.val) && decide (c.val ≤ 0x200a)) ||
  c.val == 0x2028 || c.val == 0x2029 || c.val == 0x202f ||
  c.val == 0x205f || c.val == 0x3000

/-- `strings.TrimSpace`. -/
def trimSpace (s : Str) : Str :=
  ((s.dropWhile isGoSpace).reverse.dropWhile isGoSpace).reverse

/-- Go `len` of a string: its UTF-8 byte count. -/
def goLen (s : Str) : Nat := (s.map Char.utf8Size).sum

/-- `strings.Join`. -/
def goJoin (l : List Str) (sep : Str) : Str :=
  match l with
  | [] => []
  | [x] => x
  | x :: xs => x ++ sep ++ goJoin xs sep

/-- `%d` formatting of a Go int. -/
def intStr (i : Int) : Str := str (toString i)

/-- The `contains` helper of `main.go`; ranging over a nil slice visits
nothing, so a nil slice contains no item. -/
def goContains (slice : Option (List Str)) (item : Str) : Bool :=
  match slice with
  | none => false
  | some l => l.contains item

/-- The `Config` struct. Slice fields are `Option` so that nil and empty
non-nil slices stay distinct; `MaxSubjectLength` is a Go int. -/
structure Config where
  AllowedTypes : Option (List Str)
  AllowedScopes : Option (List Str)
  RequireScope : Bool
  RequireScopeExcept : Option (List Str)
  AllowCapitalSubject : Bool
  MaxSubjectLength : Int
deriving DecidableEq

/-- Violation message of a wholesale parse failure. -/
def formatMsg : Str :=
  str "format must be \x27type(scope)?: subject\x27 with lowercase type and a space after colon"

/-- Message of check 1 (type allow-list). -/
def typeNotAllowedMsg (cfg : Config) (ctype : Str) : Str :=
  str "type \x27" ++ ctype ++ str "\x27 is not allowed. Allowed: " ++
    goJoin (cfg.AllowedTypes.getD []) (str ", ")

/-- Message of check 2 (required scope). -/
def scopeRequiredMsg : Str := str "scope is required but missing"

/-- Message of check 3 (scope allow-list). -/
def scopeNotAllowedMsg (cfg : Config) (scope : Str) : Str :=
  str "scope \x27" ++ scope ++ str "\x27 is not in allowed list: " ++
    goJoin (cfg.AllowedScopes.getD []) (str ", ")

/-- Message of check 4 (empty subject). -/
def emptySubjectMsg : Str := str "subject must not be empty"

/-- Message of check 5 (subject too long). -/
def tooLongMsg (cfg : Config) (sub : Str) : Str :=
  str "subject too long (" ++ intStr (goLen sub) ++ str " > " ++
    intStr cfg.MaxSubjectLength ++ str ")"

/-- Message of check 6 (trailing period). -/
def periodMsg : Str := str "subject must not end with a period"

/-- Message of check 7 (uppercase start). -/
def capitalMsg : Str := str "subject should start lowercase (imperative mood)"

/-- `strings.HasSuffix(sub, ".")`: the last byte is `.`, equivalently the
last character (a multi-byte character never ends in an ASCII byte). -/
def endsWithPeriod (sub : Str) : Bool := sub.getLast? == some '.'

/-- `len(sub) > 0 && sub[0] >= 'A' && sub[0] <= 'Z'`: the first byte is an
uppercase ASCII letter, equivalently the first character. -/
def firstUpper (sub : Str) : Bool :=
  match sub with
  | c :: _ => decide ('A' ≤ c) && decide (c ≤ 'Z')
  | [] => false

/-- Condition of check 1: `l.Config.AllowedTypes != nil && !contains(l.Config.AllowedTypes, ctype)`. -/
def cond1 (cfg : Config) (ctype : Str) : Bool :=
  cfg.AllowedTypes.isSome && !goContains cfg.AllowedTypes ctype

/-- Condition of check 2: `l.Config.RequireScope && scope == "" && !contains(l.Config.RequireScopeExcept, ctype)`. -/
def cond2 (cfg : Config) (ctype scope : Str) : Bool :=
  cfg.RequireScope && scope.isEmpty && !goContains cfg.RequireScopeExcept ctype

/-- Condition of check 3: `scope != "" && l.Config.AllowedScopes != nil && !contains(l.Config.AllowedScopes, scope)`. -/
def cond3 (cfg : Config) (scope : Str) : Bool :=
  !scope.isEmpty && cfg.AllowedScopes.isSome && !goContains cfg.AllowedScopes scope

/-- Condition of check 4: `strings.TrimSpace(sub) == ""` (applied to the
already-trimmed `sub`). -/
def cond4 (sub : Str) : Bool := (trimSpace sub).isEmpty

/-- Condition of check 5: `len(sub) > l.Config.MaxSubjectLength`. -/
def cond5 (cfg : Config) (sub : Str) : Bool :=
  decide ((goLen sub : Int) > cfg.MaxSubjectLength)

/-- Condition of check 6: `strings.HasSuffix(sub, ".")`. -/
def cond6 (sub : Str) : Bool := endsWithPeriod sub

/-- Condition of check 7: `!l.Config.AllowCapitalSubject && len(sub) > 0 && sub[0] >= 'A' && sub[0] <= 'Z'`. -/
def cond7 (cfg : Config) (sub : Str) : Bool :=
  !cfg.AllowCapitalSubject && firstUpper sub

def check1 (cfg : Config) (ctype : Str) : List Str :=
  if cond1 cfg ctype then [typeNotAllowedMsg cfg ctype] else []

def check2 (cfg : Config) (ctype scope : Str) : List Str :=
  if cond2 cfg ctype scope then [scopeRequiredMsg] else []

def check3 (cfg : Config) (scope : Str) : List Str :=
  if cond3 cfg scope then [scopeNotAllowedMsg cfg scope] else []

def check4 (sub : Str) : List Str :=
  if cond4 sub then [emptySubjectMsg] else []

def check5 (cfg : Config) (sub : Str) : List Str :=
  if cond5 cfg sub then [tooLongMsg cfg sub] else []

def check6 (sub : Str) : List Str :=
  if cond6 sub then [periodMsg] else []

def check7 (cfg : Config) (sub : Str) : List Str :=
  if cond7 cfg sub then [capitalMsg] else []

/-- `LintSubject` of `main.go`: parse, then append the violations of the
seven checks in program order; the receiver only reads `l.Config`, so the
configuration is the sole parameter.  Line 59 of the source binds
`sub := strings.TrimSpace(matches[4])`, so every later check sees the
trimmed description. -/
def lintSubject (cfg : Config) (subject : Str) : List Str :=
  match parseSubject subject with
  | none => [formatMsg]
  | some (ctype, scope, _, rawSub) =>
      let sub := trimSpace rawSub
      check1 cfg ctype ++ check2 cfg ctype scope ++ check3 cfg scope ++
        check4 sub ++ check5 cfg sub ++ check6 sub ++ check7 cfg sub

/-- The specification's rule table (§4.2): one row per check, each row a
condition and its violation message, in the table's order 1→7, evaluated
on the parsed fields (`sub` being the description as the code binds it). -/
def ruleTable (cfg : Config) (ctype scope sub : Str) : List (Bool × Str) :=
  [ (cond1 cfg ctype, typeNotAllowedMsg cfg ctype),
    (cond2 cfg ctype scope, scopeRequiredMsg),
    (cond3 cfg scope, scopeNotAllowedMsg cfg scope),
    (cond4 sub, emptySubjectMsg),
    (cond5 cfg sub, tooLongMsg cfg sub),
    (cond6 sub, periodMsg),
    (cond7 cfg sub, capitalMsg) ]

/-- Specification-side result: the messages of exactly the failing rows,
kept in table order, no row short-circuiting another. -/
def specViolations (cfg : Config) (ctype scope sub : Str) : List Str :=
  ((ruleTable cfg ctype scope sub).filter Prod.fst).map Prod.snd

/-- `strings.Split(raw, ",")`. -/
def splitComma : Str → List Str
  | [] => [[]]
  | ',' :: rest => [] :: splitComma rest
  | c :: rest =>
      match splitComma rest with
      | p :: ps => (c :: p) :: ps
      | [] => [[c]]

/-- `readEnvList` of `main.go`.  `value` is what `os.Getenv(name)` returns
(empty when unset).  The result is the nil slice (`none`) when the
effective raw value trims to empty, and otherwise the — possibly empty —
non-nil slice of trimmed non-empty comma-separated tokens. -/
def readEnvList (value defaultValue : Str) : Option (List Str) :=
  let raw := if (trimSpace value).isEmpty then defaultValue else value
  if (trimSpace raw).isEmpty then none
  else some (((splitComma raw).map trimSpace).filter (fun t => !t.isEmpty))

/-- Digit run of `strconv.ParseInt` base 10: every character a digit and
at least one. -/
def digitsToNat (s : Str) : Option Nat :=
  if s.isEmpty || !s.all Char.isDigit then none
  else some (s.foldl (fun acc c => acc * 10 + (c.toNat - '0'.toNat)) 0)

/-- `strconv.Atoi`: optional sign, a non-empty digit run, and a 64-bit
range check; `none` is a non-nil error. -/
def goAtoi (s : Str) : Option Int :=
  match s with
  | '+' :: rest =>
      (digitsToNat rest).bind fun n =>
        if n ≤ 2 ^ 63 - 1 then some (Int.ofNat n) else none
  | '-' :: rest =>
      (digitsToNat rest).bind fun n =>
        if n ≤ 2 ^ 63 then some (-(Int.ofNat n)) else none
  | _ =>
      (digitsToNat s).bind fun n =>
        if n ≤ 2 ^ 63 - 1 then some (Int.ofNat n) else none

/-- `strings.ToLower` restricted to ASCII letters; the compared literals
`"1"`, `"true"`, `"yes"`, `"on"` are all ASCII, so non-ASCII folding
cannot change any comparison `getEnvBool` makes. -/
def goToLowerChar (c : Char) : Char :=
  if decide ('A' ≤ c) && decide (c ≤ 'Z') then Char.ofNat (c.toNat + 32) else c

def goToLower (s : Str) : Str := s.map goToLowerChar

/-- `getEnvBool` of `main.go`. -/
def getEnvBool (value : Str) (defaultValue : Bool) : Bool :=
  let val := goToLower value
  if val.isEmpty then defaultValue
  else val == str "1" || val == str "true" || val == str "yes" || val == str "on"

/-- The six environment variables `NewLinter` reads; an unset variable is
the empty string, as with `os.Getenv`. -/
structure Env where
  maxSubject : Str
  types : Str
  scopes : Str
  requireScope : Str
  requireScopeExcept : Str
  allowCapitalSubject : Str

/-- `NewLinter` of `main.go` (the `Linter` wrapper only carries the
`Config`, which is what is returned here). -/
def newLinter (env : Env) : Config :=
  let maxSubject : Int :=
    match goAtoi env.maxSubject with
    | some n => n
    | none => 72
  { AllowedTypes :=
      readEnvList env.types (str "feat,fix,docs,style,refactor,perf,test,build,ci,chore,revert")
    AllowedScopes := readEnvList env.scopes (str "")
    RequireScope := getEnvBool env.requireScope false
    RequireScopeExcept := readEnvList env.requireScopeExcept (str "revert")
    AllowCapitalSubject := getEnvBool env.allowCapitalSubject false
    MaxSubjectLength := maxSubject }

/-- A subject of the grammar's shape `type(scope)?!?: description`,
rendered back to a string. -/
def render (ctype scope : Str) (bang : Bool) (desc : Str) : Str :=
  ctype ++ (if scope.isEmpty then [] else '(' :: (scope ++ [')'])) ++
    (if bang then ['!'] else []) ++ ':' :: ' ' :: desc

/-! ### Helper lemmas -/

lemma takeWhile_cons_pos (p : Char → Bool) (a : Char) (l : Str) (h : p a = true) :
    (a :: l).takeWhile p = a :: l.takeWhile p := by
  simp [List.takeWhile, h]

lemma takeWhile_cons_neg (p : Char → Bool) (a : Char) (l : Str) (h : p a = false) :
    (a :: l).takeWhile p = [] := by
  simp [List.takeWhile, h]

lemma dropWhile_cons_pos (p : Char → Bool) (a : Char) (l : Str) (h : p a = true) :
    (a :: l).dropWhile p = l.dropWhile p := by
  simp [List.dropWhile, h]

lemma dropWhile_cons_neg (p : Char → Bool) (a : Char) (l : Str) (h : p a = false) :
    (a :: l).dropWhile p = a :: l := by
  simp [List.dropWhile, h]

lemma takeWhile_append_all (p : Char → Bool) (l r : Str) (h : l.all p = true) :
    (l ++ r).takeWhile p = l ++ r.takeWhile p := by
  induction l with
  | nil => simp
  | cons a l ih =>
      rw [List.all_cons, Bool.and_eq_true] at h
      simp [takeWhile_cons_pos p a _ h.1, ih h.2]

lemma dropWhile_append_all (p : Char → Bool) (l r : Str) (h : l.all p = true) :
    (l ++ r).dropWhile p = r.dropWhile p := by
  induction l with
  | nil => simp
  | cons a l ih =>
      rw [List.all_cons, Bool.and_eq_true] at h
      simp [dropWhile_cons_pos p a _ h.1, ih h.2]

lemma length_dropWhile_le (p : Char → Bool) (l : Str) :
    (l.dropWhile p).length ≤ l.length := by
  induction l with
  | nil => simp
  | cons a l ih =>
      by_cases h : p a = true
      · rw [dropWhile_cons_pos p a l h]
        exact Nat.le_trans ih (Nat.le_succ _)
      · rw [dropWhile_cons_neg p a l (Bool.not_eq_true _ ▸ h)]

lemma dropWhile_head_neg (p : Char → Bool) (l : Str) (c : Char) (cs : Str)
    (h : l.dropWhile p = c :: cs) : p c = false := by
  induction l with
  | nil => simp at h
  | cons a l ih =>
      by_cases hpa : p a = true
      · rw [dropWhile_cons_pos p a l hpa] at h
        exact ih h
      · have hpa' : p a = false := by
          cases hh : p a
          · rfl
          · exact absurd hh hpa
        rw [dropWhile_cons_neg p a l hpa'] at h
        cases h
        exact hpa'

lemma dropWhile_idem (p : Char → Bool) (l : Str) :
    (l.dropWhile p).dropWhile p = l.dropWhile p := by
  cases h : l.dropWhile p with
  | nil => simp
  | cons c cs => exact dropWhile_cons_neg p c cs (dropWhile_head_neg p l c cs h)

lemma dropWhile_is_suffix (p : Char → Bool) (l : Str) :
    ∃ t, l = t ++ l.dropWhile p := by
  induction l with
  | nil => exact ⟨[], rfl⟩
  | cons a l ih =>
      by_cases hpa : p a = true
      · obtain ⟨t, ht⟩ := ih
        exact ⟨a :: t, by rw [dropWhile_cons_pos p a l hpa, List.cons_append, ← ht]⟩
      · have hpa' : p a = false := by
          cases hh : p a
          · rfl
          · exact absurd hh hpa
        exact ⟨[], by rw [dropWhile_cons_neg p a l hpa']; rfl⟩

/-- The right-trimmed list is a prefix of the original. -/
lemma rtrim_is_prefix (p : Char → Bool) (l : Str) :
    ∃ t, l = (l.reverse.dropWhile p).reverse ++ t := by
  obtain ⟨t, ht⟩ := dropWhile_is_suffix p l.reverse
  refine ⟨t.reverse, ?_⟩
  calc l = l.reverse.reverse := (List.reverse_reverse l).symm
    _ = (t ++ l.reverse.dropWhile p).reverse := by rw [← ht]
    _ = (l.reverse.dropWhile p).reverse ++ t.reverse := by rw [List.reverse_append]

lemma ltrimmed_head_neg (p : Char → Bool) (c : Char) (cs : Str)
    (h : (c :: cs).dropWhile p = c :: cs) : p c = false := by
  by_cases hpc : p c = true
  · rw [dropWhile_cons_pos p c cs hpc] at h
    have hlen := length_dropWhile_le p cs
    rw [h] at hlen
    simp at hlen
  · cases hh : p c
    · rfl
    · exact absurd hh hpc

/-- Right-trimming preserves "already left-trimmed". -/
lemma ltrim_rtrim (p : Char → Bool) (x : Str) (hx : x.dropWhile p = x) :
    (x.reverse.dropWhile p).reverse.dropWhile p = (x.reverse.dropWhile p).reverse := by
  cases hy : (x.reverse.dropWhile p).reverse with
  | nil => simp
  | cons c u =>
      obtain ⟨t, ht⟩ := rtrim_is_prefix p x
      rw [hy] at ht
      have hc : p c = false := by
        rw [List.cons_append] at ht
        have := ltrimmed_head_neg p c (u ++ t) (by rw [← ht]; exact hx)
        exact this
      exact dropWhile_cons_neg p c u hc

lemma trimSpace_idem (s : Str) : trimSpace (trimSpace s) = trimSpace s := by
  unfold trimSpace
  set p := isGoSpace
  set x := s.dropWhile p with hxdef
  have hx : x.dropWhile p = x := dropWhile_idem p s
  have h1 : ((x.reverse.dropWhile p).reverse).dropWhile p = (x.reverse.dropWhile p).reverse :=
    ltrim_rtrim p x hx
  rw [h1, List.reverse_reverse, dropWhile_idem p x.reverse]

lemma specViolations_cons (b : Bool) (m : Str) (l : List (Bool × Str)) :
    ((((b, m)) :: l).filter Prod.fst).map Prod.snd =
      (if b then [m] else []) ++ (l.filter Prod.fst).map Prod.snd := by
  cases b <;> simp [List.filter]

lemma dropWhile_eq_self_of_takeWhile_nil (p : Char → Bool) (l : Str)
    (h : l.takeWhile p = []) : l.dropWhile p = l := by
  cases l with
  | nil => rfl
  | cons a l =>
      by_cases hpa : p a = true
      · rw [takeWhile_cons_pos p a l hpa] at h
        exact absurd h (List.cons_ne_nil a _)
      · have hpa' : p a = false := by
          cases hh : p a
          · rfl
          · exact absurd hh hpa
        exact dropWhile_cons_neg p a l hpa'

lemma parseTail_bang (ctype scope d : Str) (hd : d.all (fun c => c != '\n') = true) :
    parseTail ctype scope ('!' :: ':' :: ' ' :: d) = some (ctype, scope, true, d) := by
  simp [parseTail, hd]

lemma parseTail_nobang (ctype scope d : Str) (hd : d.all (fun c => c != '\n') = true) :
    parseTail ctype scope (':' :: ' ' :: d) = some (ctype, scope, false, d) := by
  simp [parseTail, hd]

/-- Evaluation of the parser on a subject split as type followed by a
rest that starts with a non-type character. -/
lemma parseSubject_split (t rest : Str) (h1 : t ≠ [])
    (h2 : t.all isLowerAlpha = true)
    (hhead : rest.takeWhile isLowerAlpha = []) :
    parseSubject (t ++ rest) = parseAfterType t rest := by
  have htw : (t ++ rest).takeWhile isLowerAlpha = t := by
    rw [takeWhile_append_all _ _ _ h2, hhead, List.append_nil]
  have hdw : (t ++ rest).dropWhile isLowerAlpha = rest := by
    rw [dropWhile_append_all _ _ _ h2,
      dropWhile_eq_self_of_takeWhile_nil _ _ hhead]
  have hte : t.isEmpty = false := by
    cases t with
    | nil => exact absurd rfl h1
    | cons a t' => rfl
  simp only [parseSubject, htw, hdw, hte, Bool.false_eq_true, if_false]

/-- Reduction of `parseAfterType` on a rest that opens a scope group. -/
lemma parseAfterType_paren (ctype afterParen : Str) :
    parseAfterType ctype ('(' :: afterParen) =
      (match afterParen.takeWhile isScopeChar, afterParen.dropWhile isScopeChar with
       | c :: cs, ')' :: afterClose =>
           if isScopeStart c then parseTail ctype (c :: cs) afterClose else none
       | _, _ => none) := rfl

/-- Parsing inverts rendering: a well-formed type, scope, breaking flag
and newline-free description are recovered exactly. -/
lemma parse_render (t sc d : Str) (bang : Bool) (h1 : t ≠ [])
    (h2 : t.all isLowerAlpha = true)
    (h3 : sc.all isScopeChar = true)
    (h4 : sc ≠ [] → isScopeStart (sc.headD 'a') = true)
    (h5 : d.all (fun c => c != '\n') = true) :
    parseSubject (render t sc bang d) = some (t, sc, bang, d) := by
  cases sc with
  | nil =>
      cases bang
      · have hr : render t [] false d = t ++ (':' :: ' ' :: d) := by
          simp [render]
        rw [hr, parseSubject_split t _ h1 h2
          (takeWhile_cons_neg _ _ _ (by decide))]
        exact parseTail_nobang t [] d h5
      · have hr : render t [] true d = t ++ ('!' :: ':' :: ' ' :: d) := by
          simp [render]
        rw [hr, parseSubject_split t _ h1 h2
          (takeWhile_cons_neg _ _ _ (by decide))]
        exact parseTail_bang t [] d h5
  | cons s0 sc' =>
      have hs0 : isScopeStart s0 = true := h4 (List.cons_ne_nil s0 sc')
      cases bang
      · have hr : render t (s0 :: sc') false d =
            t ++ ('(' :: ((s0 :: sc') ++ ')' :: ':' :: ' ' :: d)) := by
          simp [render]
        rw [hr, parseSubject_split t _ h1 h2
          (takeWhile_cons_neg _ _ _ (by decide)), parseAfterType_paren]
        have htwS : ((s0 :: sc') ++ ')' :: ':' :: ' ' :: d).takeWhile isScopeChar
            = s0 :: sc' := by
          rw [takeWhile_append_all _ _ _ h3,
            takeWhile_cons_neg _ _ _ (by decide), List.append_nil]
        have hdwS : ((s0 :: sc') ++ ')' :: ':' :: ' ' :: d).dropWhile isScopeChar
            = ')' :: ':' :: ' ' :: d := by
          rw [dropWhile_append_all _ _ _ h3,
            dropWhile_cons_neg _ _ _ (by decide)]
        rw [htwS, hdwS]
        show (if isScopeStart s0 then
            parseTail t (s0 :: sc') (':' :: ' ' :: d) else none) = _
        rw [hs0, if_pos rfl]
        exact parseTail_nobang t (s0 :: sc') d h5
      · have hr : render t (s0 :: sc') true d =
            t ++ ('(' :: ((s0 :: sc') ++ ')' :: '!' :: ':' :: ' ' :: d)) := by
          simp [render]
        rw [hr, parseSubject_split t _ h1 h2
          (takeWhile_cons_neg _ _ _ (by decide)), parseAfterType_paren]
        have htwS : ((s0 :: sc') ++ ')' :: '!' :: ':' :: ' ' :: d).takeWhile isScopeChar
            = s0 :: sc' := by
          rw [takeWhile_append_all _ _ _ h3,
            takeWhile_cons_neg _ _ _ (by decide), List.append_nil]
        have hdwS : ((s0 :: sc') ++ ')' :: '!' :: ':' :: ' ' :: d).dropWhile isScopeChar
            = ')' :: '!' :: ':' :: ' ' :: d := by
          rw [dropWhile_append_all _ _ _ h3,
            dropWhile_cons_neg _ _ _ (by decide)]
        rw [htwS, hdwS]
        show (if isScopeStart s0 then
            parseTail t (s0 :: sc') ('!' :: ':' :: ' ' :: d) else none) = _
        rw [hs0, if_pos rfl]
        exact parseTail_bang t (s0 :: sc') d h5

/-! ### Claims -/

/-- C1: the spec demands that merge-commit subjects (pull-request,
branch-merge and hash-into-hash shapes) pass with zero violations for
every configuration, bypassing the grammar.  `LintSubject` has no such
bypass: all three documented shapes start with the uppercase `M` of
`Merge`, fail the grammar, and get the single format violation under
every configuration. -/
theorem merge_subjects_get_format_violation (cfg : Config) :
    lintSubject cfg (str "Merge pull request #123 from feature/branch") = [formatMsg] ∧
    lintSubject cfg (str "Merge branch \x27feature/foo\x27") = [formatMsg] ∧
    lintSubject cfg
      (str "Merge 9d7b7c932575348d7a2768fc781960128d9b16f2 into 15a00c61be9c996611064f3cb94a388cbe40c3a2") =
      [formatMsg] := by
  have hp1 : parseSubject (str "Merge pull request #123 from feature/branch") = none := by
    decide
  have hp2 : parseSubject (str "Merge branch \x27feature/foo\x27") = none := by decide
  have hp3 : parseSubject
      (str "Merge 9d7b7c932575348d7a2768fc781960128d9b16f2 into 15a00c61be9c996611064f3cb94a388cbe40c3a2") =
      none := by decide
  exact ⟨by simp [lintSubject, hp1], by simp [lintSubject, hp2], by simp [lintSubject, hp3]⟩

/-- C2 counterexample: with `maxSubjectLength = 2` and the subject
`"feat:    "` (whitespace-only description of raw length 3), the claim
predicts both the emptiness violation and `subject too long (3 > 2)`;
the code trims first and reports only the emptiness violation. -/
theorem length_check_on_trimmed_cex :
    parseSubject (str "feat:    ") = some (str "feat", [], false, str "   ") ∧
    goLen (str "   ") = 3 ∧ ((3 : Int) > (2 : Int)) ∧
    lintSubject ⟨none, none, false, none, false, 2⟩ (str "feat:    ") =
      [emptySubjectMsg] ∧
    str "subject too long (3 > 2)" ∉
      lintSubject ⟨none, none, false, none, false, 2⟩ (str "feat:    ") := by
  decide

/-- C2 amended: all of checks 4–7 operate on the trimmed description —
the code binds `sub := strings.TrimSpace(matches[4])` before any check —
so the violation list of a parsed subject depends only on the type, the
scope and the trimmed description, never on the raw remainder. -/
theorem lint_uses_trimmed_description (cfg : Config) (s s' t sc : Str)
    (bg bg' : Bool) (d d' : Str)
    (h : parseSubject s = some (t, sc, bg, d))
    (h' : parseSubject s' = some (t, sc, bg', d'))
    (ht : trimSpace d = trimSpace d') :
    lintSubject cfg s = lintSubject cfg s' := by
  simp only [lintSubject, h, h', ht]

theorem lint_uses_trimmed_description_witness :
    lintSubject ⟨none, none, false, none, false, 72⟩ (str "feat: ok   ") =
      lintSubject ⟨none, none, false, none, false, 72⟩ (str "feat: ok") :=
  lint_uses_trimmed_description ⟨none, none, false, none, false, 72⟩
    (str "feat: ok   ") (str "feat: ok") (str "feat") [] false false
    (str "ok   ") (str "ok") (by decide) (by decide) (by decide)

/-- C3 counterexample: an empty but non-nil allow-list does not skip its
check — it rejects every type and every non-empty scope: with
`AllowedTypes = some []` and `AllowedScopes = some []` the subject
`"feat(api): ok"` gets both allow-list violations. -/
theorem empty_allowlist_rejects_cex :
    (⟨some [], some [], false, none, false, 72⟩ : Config).AllowedTypes = some [] ∧
    lintSubject ⟨some [], some [], false, none, false, 72⟩ (str "feat(api): ok") =
      [typeNotAllowedMsg ⟨some [], some [], false, none, false, 72⟩ (str "feat"),
       scopeNotAllowedMsg ⟨some [], some [], false, none, false, 72⟩ (str "api")] := by
  decide

/-- C3 amended: a nil (absent) allow-list skips its check: when
`AllowedTypes` and `AllowedScopes` are both nil, checks 1 and 3
contribute nothing and the result consists of checks 2 and 4–7 alone.
(An empty non-nil allow-list instead rejects everything, see the
counterexample.) -/
theorem nil_allowlists_skip_checks (cfg : Config) (s t sc : Str) (bg : Bool) (d : Str)
    (hT : cfg.AllowedTypes = none) (hS : cfg.AllowedScopes = none)
    (h : parseSubject s = some (t, sc, bg, d)) :
    lintSubject cfg s =
      check2 cfg t sc ++ check4 (trimSpace d) ++ check5 cfg (trimSpace d) ++
        check6 (trimSpace d) ++ check7 cfg (trimSpace d) := by
  simp [lintSubject, h, check1, check3, cond1, cond3, hT, hS]

theorem nil_allowlists_skip_checks_witness :
    lintSubject ⟨none, none, true, none, false, 72⟩ (str "feat: Ok.") =
      check2 ⟨none, none, true, none, false, 72⟩ (str "feat") [] ++
        check4 (trimSpace (str "Ok.")) ++
        check5 ⟨none, none, true, none, false, 72⟩ (trimSpace (str "Ok.")) ++
        check6 (trimSpace (str "Ok.")) ++
        check7 ⟨none, none, true, none, false, 72⟩ (trimSpace (str "Ok.")) :=
  nil_allowlists_skip_checks ⟨none, none, true, none, false, 72⟩
    (str "feat: Ok.") (str "feat") [] false (str "Ok.") rfl rfl (by decide)

/-- C4: any subject the grammar rejects yields exactly the one fixed
format violation, and no other rule is evaluated. -/
theorem parse_failure_single_violation (cfg : Config) (s : Str)
    (h : parseSubject s = none) : lintSubject cfg s = [formatMsg] := by
  simp [lintSubject, h]

theorem parse_failure_single_violation_witness :
    lintSubject ⟨none, none, false, none, false, 72⟩ (str "missing colon") =
      [formatMsg] :=
  parse_failure_single_violation ⟨none, none, false, none, false, 72⟩
    (str "missing colon") (by decide)

/-- C5: for every successfully parsed subject the result is exactly the
messages of the failing rows of the rule table, in the table's order
1→7, no row short-circuiting another; the empty list signals full
compliance.  (The description the rows see is the one the code binds:
the trimmed remainder — the raw/trimmed distinction is claim C2.) -/
theorem lint_matches_rule_table (cfg : Config) (s t sc : Str) (bg : Bool) (d : Str)
    (h : parseSubject s = some (t, sc, bg, d)) :
    lintSubject cfg s = specViolations cfg t sc (trimSpace d) := by
  simp only [lintSubject, h, specViolations, ruleTable, specViolations_cons,
    check1, check2, check3, check4, check5, check6, check7]
  simp [List.filter]

theorem lint_matches_rule_table_witness :
    lintSubject ⟨some [str "feat"], none, false, none, false, 10⟩
      (str "docs: Add documentation.") =
      specViolations ⟨some [str "feat"], none, false, none, false, 10⟩
        (str "docs") [] (trimSpace (str "Add documentation.")) :=
  lint_matches_rule_table ⟨some [str "feat"], none, false, none, false, 10⟩
    (str "docs: Add documentation.") (str "docs") [] false
    (str "Add documentation.") (by decide)

/-- C6 counterexample: the claim says `MaxSubjectLength` is always
positive; the environment value `"0"` is numeric, so `strconv.Atoi`
succeeds and the configuration keeps 0 — not positive, and not replaced
by 72. -/
theorem maxlen_not_positive_cex :
    (newLinter ⟨str "0", [], [], [], [], []⟩).MaxSubjectLength = 0 ∧
    ¬ (0 < (newLinter ⟨str "0", [], [], [], [], []⟩).MaxSubjectLength) := by
  decide

/-- C6 amended: `MaxSubjectLength` equals the `Atoi` parse of the
max-length variable whenever it parses (which may yield zero or a
negative number), and falls back to 72 exactly when the variable is
unset, non-numeric or out of 64-bit range. -/
theorem newLinter_maxSubjectLength (env : Env) :
    (newLinter env).MaxSubjectLength = (goAtoi env.maxSubject).getD 72 := by
  cases h : goAtoi env.maxSubject <;> simp [newLinter, h]

/-- C7 counterexample: the claim says the result is nil or a non-empty
token list; the value `","` trims to `","` (not empty, so no fallback),
splits into two empty tokens which are both dropped, and the result is
the empty non-nil slice `some []` — neither nil nor non-empty. -/
theorem readEnvList_empty_slice_cex :
    readEnvList (str ",") (str "a,b") = some [] ∧
    ¬ (readEnvList (str ",") (str "a,b") = none ∨
       ∃ l, readEnvList (str ",") (str "a,b") = some l ∧ l ≠ []) := by
  have he : readEnvList (str ",") (str "a,b") = some [] := by decide
  refine ⟨he, ?_⟩
  rintro (h | ⟨l, hl, hne⟩)
  · rw [he] at h
    exact Option.noConfusion h
  · rw [he] at hl
    exact hne (Option.some.inj hl).symm

lemma tokens_of_readEnvList (v dft : Str) (l : List Str)
    (h : readEnvList v dft = some l) :
    ∀ tk ∈ l, trimSpace tk = tk ∧ tk ≠ [] := by
  unfold readEnvList at h
  by_cases hre :
      (trimSpace (if (trimSpace v).isEmpty then dft else v)).isEmpty = true
  · rw [if_pos hre] at h
    exact Option.noConfusion h
  · rw [if_neg hre] at h
    obtain rfl :
        ((splitComma (if (trimSpace v).isEmpty then dft else v)).map trimSpace).filter
          (fun t => !t.isEmpty) = l := Option.some.inj h
    intro tk htk
    rw [List.mem_filter] at htk
    obtain ⟨hmem, hne⟩ := htk
    rw [List.mem_map] at hmem
    obtain ⟨p, _, rfl⟩ := hmem
    refine ⟨trimSpace_idem p, ?_⟩
    intro hnil
    rw [hnil] at hne
    exact absurd hne (by decide)

/-- C7 amended: every token `readEnvList` returns is trimmed and
non-empty, an unset or all-whitespace value falls back to the default,
but the returned list itself may be empty while non-nil (a value of only
commas and whitespace), so "nil or non-empty" does not hold. -/
theorem readEnvList_trimmed_tokens (v dft : Str) :
    (∀ tk ∈ (readEnvList v dft).getD [], trimSpace tk = tk ∧ tk ≠ []) ∧
    (trimSpace v = [] → readEnvList v dft = readEnvList dft dft) := by
  constructor
  · cases h : readEnvList v dft with
    | none => simp
    | some l =>
        simpa using tokens_of_readEnvList v dft l h
  · intro hv
    simp [readEnvList, hv]

/-- C8: a parsed subject with an allowed (or unrestricted) type, a scope
meeting the requirement and allow-list, and a trimmed description that
is non-empty, within the limit, not period-terminated and not starting
with a disallowed uppercase letter, produces no violations. -/
theorem compliant_subject_no_violations (cfg : Config) (s t sc : Str)
    (bg : Bool) (d : Str)
    (h : parseSubject s = some (t, sc, bg, d))
    (h1 : cfg.AllowedTypes = none ∨ goContains cfg.AllowedTypes t = true)
    (h2 : cfg.RequireScope = false ∨ sc ≠ [] ∨
      goContains cfg.RequireScopeExcept t = true)
    (h3 : sc = [] ∨ cfg.AllowedScopes = none ∨
      goContains cfg.AllowedScopes sc = true)
    (h4 : trimSpace d ≠ [])
    (h5 : (goLen (trimSpace d) : Int) ≤ cfg.MaxSubjectLength)
    (h6 : (trimSpace d).getLast? ≠ some '.')
    (h7 : cfg.AllowCapitalSubject = true ∨ firstUpper (trimSpace d) = false) :
    lintSubject cfg s = [] := by
  have hscE : ∀ x : Str, x ≠ [] → x.isEmpty = false := by
    intro x hx
    cases x with
    | nil => exact absurd rfl hx
    | cons a l => rfl
  have c1 : cond1 cfg t = false := by
    rcases h1 with h1 | h1 <;> simp [cond1, h1]
  have c2 : cond2 cfg t sc = false := by
    rcases h2 with h2 | h2 | h2
    · simp [cond2, h2]
    · simp [cond2, hscE sc h2]
    · simp [cond2, h2]
  have c3 : cond3 cfg sc = false := by
    rcases h3 with h3 | h3 | h3
    · simp [cond3, h3]
    · simp [cond3, h3]
    · simp [cond3, h3]
  have c4 : cond4 (trimSpace d) = false := by
    rw [cond4, trimSpace_idem]
    exact hscE _ h4
  have c5 : cond5 cfg (trimSpace d) = false := by
    exact decide_eq_false (not_lt.mpr h5)
  have c6 : cond6 (trimSpace d) = false := by
    rw [cond6, endsWithPeriod]
    exact beq_eq_false_iff_ne.mpr h6
  have c7 : cond7 cfg (trimSpace d) = false := by
    rcases h7 with h7 | h7 <;> simp [cond7, h7]
  simp [lintSubject, h, check1, check2, check3, check4, check5, check6, check7,
    c1, c2, c3, c4, c5, c6, c7]

theorem compliant_subject_no_violations_witness :
    lintSubject ⟨some [str "feat"], some [str "api"], true, some [str "revert"],
        false, 72⟩ (str "feat(api): add endpoint") = [] :=
  compliant_subject_no_violations
    ⟨some [str "feat"], some [str "api"], true, some [str "revert"], false, 72⟩
    (str "feat(api): add endpoint") (str "feat") (str "api") false
    (str "add endpoint") (by decide) (Or.inr (by decide))
    (Or.inr (Or.inl (by decide))) (Or.inr (Or.inr (by decide)))
    (by decide) (by decide) (by decide) (Or.inr (by decide))

/-- C9: `LintSubject` is deterministic and pure — its embedding is a
function of the configuration and the subject alone (the Go receiver
only reads `l.Config`, compiles its pattern afresh each call and touches
no other state), so two evaluations of the same pair agree. -/
theorem lintSubject_deterministic (cfg : Config) (s : Str) (r1 r2 : List Str)
    (h1 : r1 = lintSubject cfg s) (h2 : r2 = lintSubject cfg s) : r1 = r2 :=
  h1.trans h2.symm

theorem lintSubject_deterministic_witness :
    lintSubject ⟨none, none, false, none, false, 72⟩ (str "feat: ok") =
      lintSubject ⟨none, none, false, none, false, 72⟩ (str "feat: ok") :=
  lintSubject_deterministic ⟨none, none, false, none, false, 72⟩
    (str "feat: ok") _ _ rfl rfl

/-- C10: the captured breaking marker is never consulted: for every
configuration and every well-formed type, scope and newline-free
description, the subject with `!` yields exactly the violations of the
same subject without it. -/
theorem breaking_marker_irrelevant (cfg : Config) (t sc d : Str)
    (h1 : t ≠ []) (h2 : t.all isLowerAlpha = true)
    (h3 : sc.all isScopeChar = true)
    (h4 : sc ≠ [] → isScopeStart (sc.headD 'a') = true)
    (h5 : d.all (fun c => c != '\n') = true) :
    lintSubject cfg (render t sc true d) = lintSubject cfg (render t sc false d) := by
  simp only [lintSubject, parse_render t sc d true h1 h2 h3 h4 h5,
    parse_render t sc d false h1 h2 h3 h4 h5]

theorem breaking_marker_irrelevant_witness :
    lintSubject ⟨some [str "refactor"], none, false, none, false, 50⟩
        (render (str "refactor") (str "parser") true (str "simplify the logic")) =
      lintSubject ⟨some [str "refactor"], none, false, none, false, 50⟩
        (render (str "refactor") (str "parser") false (str "simplify the logic")) :=
  breaking_marker_irrelevant ⟨some [str "refactor"], none, false, none, false, 50⟩
    (str "refactor") (str "parser") (str "simplify the logic")
    (by decide) (by decide) (by decide) (by decide) (by decide)
